import Mathlib

set_option maxRecDepth 16384

/-!
Verification development for the Laforge incremental sync engine
(src-tauri/src/delta_sync.rs, transfer_resume.rs, parallel_sync.rs,
version_history.rs).

Modelling conventions of the shallow embedding:
* a file on disk is modelled by its byte contents, a `List Nat`; the
  `metadata.len()` of a readable file equals the length of its contents;
* the SHA-256 digest (`compute_hash` in delta_sync.rs) is an explicit
  parameter `hash : List Nat → List Nat` of every function that hashes,
  so collision-freedom is a hypothesis where a proof needs it;
* `f32` percentages are computed exactly in `ℚ`;
* wall-clock strings (`chrono::Utc::now()` formatting) are passed in as
  explicit `String` arguments; RFC3339 parsing is an explicit parameter
  `parse : String → Option Int` returning a timestamp in seconds;
* `HashMap` fields are modelled as association lists; `Result<T, String>`
  values whose errors can only come from I/O are total here because the
  inputs stand for successfully performed I/O.
-/

namespace Laforge

/-- Chunk size for delta comparison (64KB), `CHUNK_SIZE` in delta_sync.rs. -/
def CHUNK_SIZE : Nat := 65536

/-- Minimum file size for chunked delta sync, `MIN_DELTA_FILE_SIZE` (256KB). -/
def MIN_DELTA_FILE_SIZE : Nat := 256 * 1024

/-- `DeltaStatus` of delta_sync.rs. -/
inductive DeltaStatus where
  | New
  | Unchanged
  | Modified
  | SmallFile
  | Deleted
deriving DecidableEq, Repr

/-- `ChunkHash` of delta_sync.rs: hash information for a single chunk. -/
structure ChunkHash where
  index : Nat
  offset : Nat
  size : Nat
  hash : List Nat
deriving DecidableEq, Repr

/-- `FileSignature` of delta_sync.rs. -/
structure FileSignature where
  path : String
  total_size : Nat
  full_hash : List Nat
  chunk_size : Nat
  chunk_hashes : List ChunkHash
  modified_at : String
  created_at : String
deriving DecidableEq, Repr

/-- `FileDelta` of delta_sync.rs; `savings_percent` (an `f32` in the source)
is carried exactly as a rational. -/
structure FileDelta where
  path : String
  status : DeltaStatus
  total_size : Nat
  transfer_size : Nat
  changed_chunks : List Nat
  savings_percent : ℚ
deriving DecidableEq, Repr

/-- The successive windows `contents.chunks(n)` of Rust: slices of `n`
elements, the final one possibly shorter; the empty list has no chunks. -/
def chunksOf (n : Nat) (l : List Nat) : List (List Nat) :=
  if h : l = [] ∨ n = 0 then []
  else l.take n :: chunksOf n (l.drop n)
termination_by l.length
decreasing_by
  push_neg at h
  simp only [List.length_drop]
  exact Nat.sub_lt (List.length_pos.mpr h.1) (Nat.pos_of_ne_zero h.2)

/-- The chunk-hash construction loop of `generate_file_signature`:
running index and byte offset, one `ChunkHash` per chunk. -/
def chunkHashesOf (hash : List Nat → List Nat) :
    List (List Nat) → Nat → Nat → List ChunkHash
  | [], _, _ => []
  | c :: rest, index, offset =>
    { index := index, offset := offset, size := c.length, hash := hash c } ::
      chunkHashesOf hash rest (index + 1) (offset + c.length)

/-- `generate_file_signature` of delta_sync.rs on a readable file with the
given contents; `modified_at`/`created_at` are the formatted clock strings. -/
def generate_file_signature (hash : List Nat → List Nat) (contents : List Nat)
    (relative_path modified_at created_at : String) : FileSignature :=
  { path := relative_path
    total_size := contents.length
    full_hash := hash contents
    chunk_size := CHUNK_SIZE
    chunk_hashes := chunkHashesOf hash (chunksOf CHUNK_SIZE contents) 0 0
    modified_at := modified_at
    created_at := created_at }

/-- The per-chunk changed test of `compute_file_delta`: a live chunk at
`index` is changed when the cached signature has no chunk at that index or
the cached hash differs. -/
def chunkChanged (hash : List Nat → List Nat) (cached : List ChunkHash)
    (index : Nat) (chunk : List Nat) : Bool :=
  ((cached[index]?).map fun cachedChunk => decide (cachedChunk.hash ≠ hash chunk)).getD true

/-- The chunk-comparison loop of `compute_file_delta` over the enumerated
live chunks: the pushed changed indices and the accumulated transfer size. -/
def scanChunks (hash : List Nat → List Nat) (cached : List ChunkHash) :
    List (Nat × List Nat) → List Nat × Nat
  | [] => ([], 0)
  | (index, chunk) :: rest =>
    let r := scanChunks hash cached rest
    if chunkChanged hash cached index chunk then (index :: r.1, r.2 + chunk.length)
    else r

/-- `compute_file_delta` of delta_sync.rs on a readable file with the given
contents, compared against an optional cached signature. -/
def compute_file_delta (hash : List Nat → List Nat) (contents : List Nat)
    (relative_path : String) (cached_signature : Option FileSignature) : FileDelta :=
  let total_size := contents.length
  match cached_signature with
  | none =>
    { path := relative_path, status := .New, total_size := total_size
      transfer_size := total_size, changed_chunks := [], savings_percent := 0 }
  | some cached =>
    if total_size < MIN_DELTA_FILE_SIZE then
      { path := relative_path, status := .SmallFile, total_size := total_size
        transfer_size := total_size, changed_chunks := [], savings_percent := 0 }
    else if hash contents = cached.full_hash then
      { path := relative_path, status := .Unchanged, total_size := total_size
        transfer_size := 0, changed_chunks := [], savings_percent := 100 }
    else
      let scanned := scanChunks hash cached.chunk_hashes
        (List.enumFrom 0 (chunksOf CHUNK_SIZE contents))
      let savings : ℚ :=
        if 0 < total_size then
          ((total_size - scanned.2 : Nat) : ℚ) / (total_size : ℚ) * 100
        else 0
      { path := relative_path, status := .Modified, total_size := total_size
        transfer_size := scanned.2, changed_chunks := scanned.1
        savings_percent := savings }

/-- The stand-in hash used to instantiate concrete witnesses: the identity
on byte lists, which is trivially collision free. -/
def idHash : List Nat → List Nat := fun l => l

/-- Splitting a character list on a separator, as Rust's `split('/')`
does: always at least one (possibly empty) component. -/
def splitOnChar (sep : Char) : List Char → List (List Char)
  | [] => [[]]
  | c :: rest =>
    let r := splitOnChar sep rest
    if c = sep then [] :: r
    else
      match r with
      | [] => [[c]]
      | g :: gs => (c :: g) :: gs

/-- Rust's `starts_with('.')` on one path component. -/
def startsWithDot (component : List Char) : Bool :=
  match component with
  | [] => false
  | ch :: _ => ch = '.'

/-- The hidden-file test of the tree walk in `analyze_delta_sync`: the
source skips a file whose name (the last path component) starts with a
dot and then also skips any relative path one of whose `/`-separated
components starts with a dot. -/
def isHiddenPath (relative : String) : Bool :=
  (((splitOnChar '/' relative.toList).getLast?.map startsWithDot).getD false)
    || ((splitOnChar '/' relative.toList).any startsWithDot)

/-- One walked regular file of the local tree: its path relative to the
root and its contents, `none` when reading it for analysis fails (the
source logs a warning and skips the file). -/
structure DirEntry where
  relative : String
  contents : Option (List Nat)

/-- `SignatureCache.get_signature`: the signature map is modelled as an
association list. -/
def cacheFind (cache : List (String × FileSignature)) (path : String) : Option FileSignature :=
  (cache.find? fun e => e.1 == path).map Prod.snd

/-- The per-file loop of `analyze_delta_sync`: hidden paths are skipped,
unreadable files are skipped, every other file contributes the delta
against its cached signature. -/
def walkDeltas (hash : List Nat → List Nat) (cache : List (String × FileSignature)) :
    List DirEntry → List FileDelta
  | [] => []
  | e :: rest =>
    if isHiddenPath e.relative then walkDeltas hash cache rest
    else
      match e.contents with
      | none => walkDeltas hash cache rest
      | some contents =>
        compute_file_delta hash contents e.relative (cacheFind cache e.relative) ::
          walkDeltas hash cache rest

/-- The synthetic delta `analyze_delta_sync` appends for a cached path that
no longer exists on disk. -/
def deletedDelta (path : String) : FileDelta :=
  { path := path, status := .Deleted, total_size := 0, transfer_size := 0
    changed_chunks := [], savings_percent := 100 }

/-- The deleted-files loop of `analyze_delta_sync`: one `Deleted` delta per
cached path absent from the set of paths existing on disk. -/
def deletedDeltas (existing : List String) : List (String × FileSignature) → List FileDelta
  | [] => []
  | e :: rest =>
    if existing.contains e.1 then deletedDeltas existing rest
    else deletedDelta e.1 :: deletedDeltas existing rest

/-- `analyze_delta_sync` of delta_sync.rs over an existing root: `entries`
are the regular files the walk visits in order, `existing` the paths that
exist on disk (the walk's files among them), `cache` the project's
signature cache. -/
def analyze_delta_sync (hash : List Nat → List Nat) (entries : List DirEntry)
    (existing : List String) (cache : List (String × FileSignature)) : List FileDelta :=
  walkDeltas hash cache entries ++ deletedDeltas existing cache

/-! Transfer resume (transfer_resume.rs). -/

/-- `TransferStatus` of transfer_resume.rs. -/
inductive TransferStatus where
  | Pending
  | InProgress
  | Paused
  | Completed
  | Failed
deriving DecidableEq, Repr

/-- `FileTransferState` of transfer_resume.rs. -/
structure FileTransferState where
  path : String
  local_path : String
  remote_path : String
  total_size : Nat
  transferred_bytes : Nat
  checksum : Option String
  started_at : String
  updated_at : String
  status : TransferStatus
deriving DecidableEq, Repr

/-- `TransferSession` of transfer_resume.rs; the `files` HashMap is an
association list keyed by path. -/
structure TransferSession where
  id : String
  project_id : String
  started_at : String
  files : List (String × FileTransferState)
  completed : Bool
deriving DecidableEq, Repr

/-- `TransferSession::new`; the uuid and the clock are explicit inputs. -/
def TransferSession.new (id project_id started_at : String) : TransferSession :=
  { id := id, project_id := project_id, started_at := started_at
    files := [], completed := false }

/-- `HashMap::insert`: replace the entry with the key, else add one. -/
def insertEntry (files : List (String × FileTransferState)) (key : String)
    (value : FileTransferState) : List (String × FileTransferState) :=
  if files.any fun e => e.1 == key then
    files.map fun e => if e.1 = key then (key, value) else e
  else files ++ [(key, value)]

/-- `TransferSession::add_file`; `now` is the formatted clock string. -/
def TransferSession.add_file (s : TransferSession)
    (path local_path remote_path : String) (total_size : Nat) (now : String) :
    TransferSession :=
  let state : FileTransferState :=
    { path := path, local_path := local_path, remote_path := remote_path
      total_size := total_size, transferred_bytes := 0, checksum := none
      started_at := now, updated_at := now, status := .Pending }
  { s with files := insertEntry s.files path state }

/-- `TransferSession::update_progress`: `get_mut` on the path, set the byte
count, the clock and `InProgress`; absent paths are untouched. -/
def TransferSession.update_progress (s : TransferSession) (path : String)
    (transferred : Nat) (now : String) : TransferSession :=
  { s with files := s.files.map fun e =>
      if e.1 = path then
        (e.1, { e.2 with transferred_bytes := transferred, updated_at := now
                         status := .InProgress })
      else e }

/-- `TransferSession::mark_completed`: snap the byte count to the total and
set `Completed`; absent paths are untouched. -/
def TransferSession.mark_completed (s : TransferSession) (path : String)
    (now : String) : TransferSession :=
  { s with files := s.files.map fun e =>
      if e.1 = path then
        (e.1, { e.2 with transferred_bytes := e.2.total_size
                         status := .Completed, updated_at := now })
      else e }

/-- `TransferSession::mark_failed`: set `Failed`; absent paths untouched. -/
def TransferSession.mark_failed (s : TransferSession) (path : String)
    (now : String) : TransferSession :=
  { s with files := s.files.map fun e =>
      if e.1 = path then
        (e.1, { e.2 with status := .Failed, updated_at := now })
      else e }

/-- Lookup of one file state of a session by path. -/
def TransferSession.fileState (s : TransferSession) (path : String) :
    Option FileTransferState :=
  (s.files.find? fun e => e.1 == path).map Prod.snd

/-- The relational invariant of `FileTransferState` (spec section 3):
`transferred_bytes ≤ total_size`, and `Completed` implies equality. -/
def SessionInvariant (s : TransferSession) : Prop :=
  ∀ e ∈ s.files, e.2.transferred_bytes ≤ e.2.total_size ∧
    (e.2.status = TransferStatus.Completed → e.2.transferred_bytes = e.2.total_size)

instance (s : TransferSession) : Decidable (SessionInvariant s) := by
  unfold SessionInvariant; infer_instance

/-- `TransferSessionStore` of transfer_resume.rs; the sessions HashMap is
an association list keyed by session id. -/
structure TransferSessionStore where
  sessions : List (String × TransferSession)
deriving DecidableEq, Repr

/-- `TransferSessionStore::complete_session`: mark the session completed,
keeping it in the store. -/
def TransferSessionStore.complete_session (store : TransferSessionStore)
    (session_id : String) : TransferSessionStore :=
  { sessions := store.sessions.map fun e =>
      if e.1 = session_id then (e.1, { e.2 with completed := true }) else e }

/-- The retain test of `TransferSessionStore::cleanup_old_sessions`:
`parse` stands for `chrono::DateTime::parse_from_rfc3339` (seconds since
the epoch); a session is kept when its recorded start is newer than the
cutoff, when it is still open, or when its start does not parse. -/
def retainSession (parse : String → Option Int) (cutoff : Int)
    (s : TransferSession) : Bool :=
  match parse s.started_at with
  | some started => decide (cutoff < started) || !s.completed
  | none => true

/-- `TransferSessionStore::cleanup_old_sessions`; `now` is the clock in
seconds and the cutoff is `now` minus `max_age_hours` hours. -/
def TransferSessionStore.cleanup_old_sessions (store : TransferSessionStore)
    (parse : String → Option Int) (now max_age_hours : Int) : TransferSessionStore :=
  let cutoff := now - max_age_hours * 3600
  { sessions := store.sessions.filter fun e => retainSession parse cutoff e.2 }

/-- The remote object `resume_sftp_upload` may open: its current contents
and the size its `stat()` reports (`None` when the server reports none). -/
structure RemoteFile where
  contents : List Nat
  statSize : Option Nat
deriving DecidableEq, Repr

/-- `write_all` of a buffer at a write position of the remote file. -/
def writeAt (dst : List Nat) (pos : Nat) (data : List Nat) : List Nat :=
  dst.take pos ++ data ++ dst.drop (pos + data.length)

/-- The transfer loop of `resume_sftp_upload`: successive 64KB chunk
writes, each advancing the write position. -/
def writeChunks (dst : List Nat) (pos : Nat) : List (List Nat) → List Nat
  | [] => dst
  | c :: rest => writeChunks (writeAt dst pos c) (pos + c.length) rest

/-- `resume_sftp_upload` of transfer_resume.rs on a readable local file
with the given contents: the local file is seeked to `offset`, the remote
handle is chosen by the source's branches (recreate when the reported stat
size differs from `offset`, seek to end when it matches, position 0 when
no size is reported or the file is created), and the remaining local bytes
are written in 64KB chunks. Returns the final remote contents and the
returned `transferred` count. -/
def resume_sftp_upload (localContents : List Nat) (remote : Option RemoteFile)
    (offset : Nat) : List Nat × Nat :=
  let localRest := localContents.drop offset
  let handle : List Nat × Nat :=
    if 0 < offset then
      match remote with
      | some f =>
        match f.statSize with
        | some size =>
          if size ≠ offset then ([], 0) else (f.contents, f.contents.length)
        | none => (f.contents, 0)
      | none => ([], 0)
    else ([], 0)
  (writeChunks handle.1 handle.2 (chunksOf 65536 localRest),
    offset + localRest.length)

/-! Parallel transfer orchestrator (parallel_sync.rs). -/

/-- `FileDiff` of main.rs as consumed by the parallel sync (its
`remote_size` plays no role there and is omitted). -/
structure FileDiff where
  path : String
  status : String
  local_size : Option Nat
deriving DecidableEq, Repr

/-- The shared counters and error list of `ParallelProgressTracker`. -/
structure Tracker where
  completed_files : Nat
  failed_files : Nat
  errors : List String
deriving DecidableEq, Repr

/-- The tracker as `ParallelProgressTracker::new` initializes it. -/
def Tracker.init : Tracker := { completed_files := 0, failed_files := 0, errors := [] }

/-- `ParallelProgressTracker::should_stop`: true once 3 failures are
recorded. -/
def Tracker.should_stop (t : Tracker) : Bool := decide (3 ≤ t.failed_files)

/-- `emit_file_complete`: bump the completed counter. -/
def Tracker.fileComplete (t : Tracker) : Tracker :=
  { t with completed_files := t.completed_files + 1 }

/-- `emit_file_error`: bump the failure counter and record
`"{file}: {error}"`. -/
def Tracker.fileError (t : Tracker) (file error : String) : Tracker :=
  { t with failed_files := t.failed_files + 1
           errors := t.errors ++ [file ++ ": " ++ error] }

/-- The parallel wave of `parallel_ftp_sync`/`parallel_sftp_sync`, modelled
as one worker schedule over the files: each worker first consults the
cancellation flag and `should_stop`, then attempts its upload, whose
outcome the oracle `outcome` gives (`none` = uploaded, `some e` = failed
with message `e`). Returns the final tracker and the uploaded paths, which
stay uploaded (nothing is rolled back). -/
def runWave (outcome : String → Option String) (cancelled : Bool) :
    List FileDiff → Tracker → List String → Tracker × List String
  | [], t, uploaded => (t, uploaded)
  | d :: rest, t, uploaded =>
    if cancelled || t.should_stop then runWave outcome cancelled rest t uploaded
    else
      match outcome d.path with
      | none => runWave outcome cancelled rest t.fileComplete (uploaded ++ [d.path])
      | some e => runWave outcome cancelled rest (t.fileError d.path e) uploaded

/-- The aggregate failure message `"{n} fichier(s) en erreur: {list}"`. -/
def aggregateError (errors : List String) : String :=
  toString errors.length ++ " fichier(s) en erreur: " ++ String.intercalate ", " errors

/-- `parallel_ftp_sync` of parallel_sync.rs (the same skeleton as the SFTP
variant): filter the diffs to `added`/`modified`, run the wave, and fail
with the aggregate error when any per-file error was recorded. Returns the
operation's result together with the paths left uploaded on the remote. -/
def parallel_ftp_sync (outcome : String → Option String) (cancelled : Bool)
    (diffs : List FileDiff) : Except String Unit × List String :=
  let files_to_upload := diffs.filter fun d =>
    d.status == "added" || d.status == "modified"
  if files_to_upload.isEmpty then (.ok (), [])
  else
    let r := runWave outcome cancelled files_to_upload Tracker.init []
    let result : Except String Unit :=
      if r.1.errors.isEmpty then
        if cancelled then .error "Synchronisation annulée" else .ok ()
      else .error (aggregateError r.1.errors)
    (result, r.2)

/-! Version snapshot store (version_history.rs). -/

/-- `FileVersion` of version_history.rs (the whole-file digest is kept as
the hex string it is in the source). -/
structure FileVersion where
  id : String
  path : String
  hash : String
  size : Nat
  modified : String
  sync_id : String
  backup_path : Option String
deriving DecidableEq, Repr

/-- `SyncSnapshot` of version_history.rs. -/
structure SyncSnapshot where
  id : String
  project_id : String
  timestamp : String
  files : List FileVersion
  total_size : Nat
  files_count : Nat
  message : Option String
deriving DecidableEq, Repr

/-- `ProjectVersionHistory` of version_history.rs. -/
structure ProjectVersionHistory where
  project_id : String
  snapshots : List SyncSnapshot
  max_snapshots : Nat
deriving DecidableEq, Repr

/-- The backup files of a snapshot. -/
def backupPaths (snap : SyncSnapshot) : List String :=
  snap.files.filterMap fun f => f.backup_path

/-- The cleanup loop of `add_snapshot`: `fs::remove_file` on each backup
file of the removed snapshot; the disk is the set of backup paths present. -/
def deleteBackups (snap : SyncSnapshot) (disk : List String) : List String :=
  snap.files.foldl
    (fun d f =>
      match f.backup_path with
      | some p => d.filter fun q => decide (q ≠ p)
      | none => d)
    disk

/-- The `while snapshots.len() > max_snapshots` pruning loop of
`add_snapshot`: pop the front snapshot and delete its backup files until
the cap holds. -/
def pruneSnapshots (maxSnapshots : Nat) :
    List SyncSnapshot → List String → List SyncSnapshot × List String
  | [], disk => ([], disk)
  | s0 :: rest, disk =>
    if maxSnapshots < (s0 :: rest).length then
      pruneSnapshots maxSnapshots rest (deleteBackups s0 disk)
    else (s0 :: rest, disk)

/-- `ProjectVersionHistory::add_snapshot`: push the snapshot, then prune
oldest-first while over the cap, deleting the evicted snapshots' backup
files. Returns the new history and the disk after the deletions. -/
def ProjectVersionHistory.add_snapshot (h : ProjectVersionHistory)
    (snapshot : SyncSnapshot) (disk : List String) :
    ProjectVersionHistory × List String :=
  let r := pruneSnapshots h.max_snapshots (h.snapshots ++ [snapshot]) disk
  ({ h with snapshots := r.1 }, r.2)

/-! Specification-side artefacts used to state and instantiate theorems. -/

/-- The paths a wave starting from `k` recorded failures attempts (every
worker first consults `should_stop`, and the failure counter never
decreases, so a worker skips exactly when 3 failures are already in). -/
def attemptedPaths (outcome : String → Option String) : Nat → List FileDiff → List String
  | _, [] => []
  | k, d :: rest =>
    if 3 ≤ k then attemptedPaths outcome k rest
    else d.path :: attemptedPaths outcome (k + if (outcome d.path).isSome then 1 else 0) rest

/-- The diffs a parallel sync wave uploads: status `added` or `modified`. -/
def uploadCandidates (diffs : List FileDiff) : List FileDiff :=
  diffs.filter fun d => d.status == "added" || d.status == "modified"

/-- The error lines (`"path: message"`) the wave records: one per
attempted file whose upload fails. -/
def waveErrors (outcome : String → Option String) (files : List FileDiff) : List String :=
  (attemptedPaths outcome 0 files).filterMap fun p =>
    (outcome p).map fun e => p ++ ": " ++ e

/-- The paths the wave leaves uploaded: the attempted files whose upload
succeeds. -/
def waveUploads (outcome : String → Option String) (files : List FileDiff) : List String :=
  (attemptedPaths outcome 0 files).filter fun p => (outcome p).isNone

/-- Folding the backup-file deletions of a run of evicted snapshots over
the disk. -/
def evictFold : List SyncSnapshot → List String → List String
  | [], disk => disk
  | s :: rest, disk => evictFold rest (deleteBackups s disk)

/-- A 1 MiB file of zero bytes (sixteen 64 KiB chunks). -/
def oneMiBZeros : List Nat := List.replicate (16 * 65536) 0

/-- The same 1 MiB file with exactly one byte changed inside chunk index 3
(its first byte, file offset 196608). -/
def oneMiBFlipped : List Nat :=
  List.replicate (3 * 65536) 0 ++ (1 :: List.replicate 65535 0) ++
    List.replicate (12 * 65536) 0

/-- A trivial snapshot with no files, used by concrete instances. -/
def snapNoBackup (i : Nat) : SyncSnapshot :=
  { id := toString i, project_id := "p", timestamp := "", files := []
    total_size := 0, files_count := 0, message := none }

/-- A snapshot holding one file version backed up at path `b1`. -/
def snapWithBackup : SyncSnapshot :=
  { id := "1", project_id := "p", timestamp := ""
    files := [{ id := "f1", path := "a", hash := "", size := 0, modified := ""
                sync_id := "1", backup_path := some "b1" }]
    total_size := 0, files_count := 1, message := none }

/-! Shared lemmas. -/

theorem compute_delta_self_unchanged (hash : List Nat → List Nat)
    (contents : List Nat) (rel m c : String)
    (hbig : MIN_DELTA_FILE_SIZE ≤ contents.length) :
    compute_file_delta hash contents rel
        (some (generate_file_signature hash contents rel m c)) =
      { path := rel, status := .Unchanged, total_size := contents.length
        transfer_size := 0, changed_chunks := [], savings_percent := 100 } := by
  simp [compute_file_delta, generate_file_signature, Nat.not_lt.mpr hbig]

theorem map_keyed_id {β : Type} (files : List (String × β)) (p : String)
    (g : String × β → String × β) (h : ∀ e ∈ files, e.1 ≠ p) :
    (files.map fun e => if e.1 = p then g e else e) = files := by
  induction files with
  | nil => rfl
  | cons a l ih =>
    have ha : a.1 ≠ p := h a (List.mem_cons_self a l)
    have hl : ∀ e ∈ l, e.1 ≠ p := fun e he => h e (List.mem_cons_of_mem a he)
    simp [if_neg ha, ih hl]

/-! Claim C1: comparing a file against its own fresh signature. The claim
quantifies over every file, but a file under the 256 KiB floor takes the
`SmallFile` branch of `compute_file_delta` before the full-hash comparison
is reached (consistently with spec section 4.1, which orders the
`SmallFile` rule before the `Unchanged` rule). -/

/-- C1 counterexample: a 1-byte file compared against its own freshly
generated signature yields `SmallFile` with 0% savings, not `Unchanged`
with 100%. -/
theorem claim_C1_counterexample :
    (compute_file_delta idHash [42] "f"
        (some (generate_file_signature idHash [42] "f" "" ""))).status = DeltaStatus.SmallFile ∧
    DeltaStatus.SmallFile ≠ DeltaStatus.Unchanged ∧
    (compute_file_delta idHash [42] "f"
        (some (generate_file_signature idHash [42] "f" "" ""))).savings_percent = 0 := by
  exact ⟨rfl, by decide, rfl⟩

/-- C1 (amended to files of at least `MIN_DELTA_FILE_SIZE` bytes): for
every such file, comparing it against its own freshly generated signature
yields `Unchanged` with `transfer_size = 0` and `savings_percent = 100`. -/
theorem claim_C1_self_delta_unchanged (hash : List Nat → List Nat)
    (contents : List Nat) (rel m c : String)
    (hbig : MIN_DELTA_FILE_SIZE ≤ contents.length) :
    compute_file_delta hash contents rel
        (some (generate_file_signature hash contents rel m c)) =
      { path := rel, status := .Unchanged, total_size := contents.length
        transfer_size := 0, changed_chunks := [], savings_percent := 100 } :=
  compute_delta_self_unchanged hash contents rel m c hbig

/-- C1 witness: the amended statement at a concrete 256 KiB file. -/
theorem claim_C1_witness :
    MIN_DELTA_FILE_SIZE ≤ (List.replicate MIN_DELTA_FILE_SIZE (0 : Nat)).length ∧
    compute_file_delta idHash (List.replicate MIN_DELTA_FILE_SIZE 0) "f"
        (some (generate_file_signature idHash (List.replicate MIN_DELTA_FILE_SIZE 0) "f" "" "")) =
      { path := "f", status := .Unchanged
        total_size := (List.replicate MIN_DELTA_FILE_SIZE (0 : Nat)).length
        transfer_size := 0, changed_chunks := [], savings_percent := 100 } :=
  ⟨by rw [List.length_replicate],
   claim_C1_self_delta_unchanged idHash (List.replicate MIN_DELTA_FILE_SIZE 0) "f" "" ""
     (by rw [List.length_replicate])⟩

/-! Claim C2: files under the 256 KiB floor. The claim says `SmallFile`
for every cache state, but with no cached signature `compute_file_delta`
returns `New` before the size test is reached (spec section 4.1 orders the
`New` rule first). -/

/-- C2 counterexample: a small file with no cached signature yields `New`,
not `SmallFile`. -/
theorem claim_C2_counterexample :
    ([0] : List Nat).length < MIN_DELTA_FILE_SIZE ∧
    (compute_file_delta idHash [0] "f" none).status = DeltaStatus.New ∧
    DeltaStatus.New ≠ DeltaStatus.SmallFile := by
  exact ⟨by decide, rfl, by decide⟩

/-- C2 (amended): a file under 256 KiB yields `SmallFile` with the whole
file as transfer size whenever a cached signature for the path exists —
whatever that signature holds; with no cached signature the status is
`New`, again transferring the whole file. -/
theorem claim_C2_small_file (hash : List Nat → List Nat) (contents : List Nat)
    (rel : String) (sig : FileSignature)
    (hsmall : contents.length < MIN_DELTA_FILE_SIZE) :
    compute_file_delta hash contents rel (some sig) =
      { path := rel, status := .SmallFile, total_size := contents.length
        transfer_size := contents.length, changed_chunks := []
        savings_percent := 0 } ∧
    compute_file_delta hash contents rel none =
      { path := rel, status := .New, total_size := contents.length
        transfer_size := contents.length, changed_chunks := []
        savings_percent := 0 } := by
  constructor
  · simp [compute_file_delta, hsmall]
  · simp [compute_file_delta]

/-- C2 witness: the amended statement at a concrete 2-byte file and an
arbitrary concrete cached signature. -/
theorem claim_C2_witness :
    ([1, 2] : List Nat).length < MIN_DELTA_FILE_SIZE ∧
    (compute_file_delta idHash [1, 2] "g"
        (some (generate_file_signature idHash [9] "g" "" "")) =
      { path := "g", status := .SmallFile, total_size := ([1, 2] : List Nat).length
        transfer_size := ([1, 2] : List Nat).length, changed_chunks := []
        savings_percent := 0 } ∧
    compute_file_delta idHash [1, 2] "g" none =
      { path := "g", status := .New, total_size := ([1, 2] : List Nat).length
        transfer_size := ([1, 2] : List Nat).length, changed_chunks := []
        savings_percent := 0 }) :=
  ⟨by decide,
   claim_C2_small_file idHash [1, 2] "g" (generate_file_signature idHash [9] "g" "" "")
     (by decide)⟩

/-! Claim C5: the per-file relational invariant of a transfer session.
`update_progress` stores its argument unclamped, so an argument above the
registered `total_size` breaks `transferred_bytes ≤ total_size`; the other
operations preserve the invariant unconditionally. -/

/-- C5 counterexample: a session holding one pending 10-byte file
satisfies the invariant, and `update_progress` with `transferred = 11`
breaks it. -/
theorem claim_C5_counterexample :
    SessionInvariant ((TransferSession.new "id" "p" "t").add_file "a" "la" "ra" 10 "t") ∧
    ¬ SessionInvariant
        (((TransferSession.new "id" "p" "t").add_file "a" "la" "ra" 10 "t").update_progress
          "a" 11 "t2") := by
  constructor
  · decide
  · decide

/-- C5 (amended): the invariant is preserved by `add_file`,
`mark_completed` and `mark_failed` for every argument, and by
`update_progress` whenever the transferred argument is at most the
registered `total_size` of every entry at the path. -/
theorem claim_C5_invariant_preservation (s : TransferSession)
    (path lp rp now : String) (size n : Nat) (hinv : SessionInvariant s) :
    SessionInvariant (s.add_file path lp rp size now) ∧
    SessionInvariant (s.mark_completed path now) ∧
    SessionInvariant (s.mark_failed path now) ∧
    ((∀ e ∈ s.files, e.1 = path → n ≤ e.2.total_size) →
      SessionInvariant (s.update_progress path n now)) := by
  refine ⟨?_, ?_, ?_, ?_⟩
  · intro e he
    simp only [TransferSession.add_file, insertEntry] at he
    by_cases hany : s.files.any fun e => e.1 == path
    · simp only [if_pos hany] at he
      obtain ⟨a, ha, rfl⟩ := List.mem_map.mp he
      by_cases hk : a.1 = path
      · simp [if_pos hk]
      · simp only [if_neg hk]
        exact hinv a ha
    · simp only [if_neg hany] at he
      rcases List.mem_append.mp he with hmem | hmem
      · exact hinv e hmem
      · rcases List.mem_singleton.mp hmem with rfl
        simp
  · intro e he
    simp only [TransferSession.mark_completed] at he
    obtain ⟨a, ha, rfl⟩ := List.mem_map.mp he
    by_cases hk : a.1 = path
    · simp [if_pos hk]
    · simp only [if_neg hk]
      exact hinv a ha
  · intro e he
    simp only [TransferSession.mark_failed] at he
    obtain ⟨a, ha, rfl⟩ := List.mem_map.mp he
    by_cases hk : a.1 = path
    · have := hinv a ha
      simp [if_pos hk, this.1]
    · simp only [if_neg hk]
      exact hinv a ha
  · intro hbound e he
    simp only [TransferSession.update_progress] at he
    obtain ⟨a, ha, rfl⟩ := List.mem_map.mp he
    by_cases hk : a.1 = path
    · simp [if_pos hk, hbound a ha hk]
    · simp only [if_neg hk]
      exact hinv a ha

/-- C5 witness: the amended statement at a concrete one-file session and
an in-bounds progress argument. -/
theorem claim_C5_witness :
    SessionInvariant
      (((TransferSession.new "w" "p" "t").add_file "a" "la" "ra" 10 "t").update_progress
        "a" 7 "t2") :=
  (claim_C5_invariant_preservation
      ((TransferSession.new "w" "p" "t").add_file "a" "la" "ra" 10 "t")
      "a" "lb" "rb" "t2" 4 7 (by decide)).2.2.2 (by decide)

/-! Claim C9: session completion and cleanup. `complete_session` only
flips the flag, but `cleanup_old_sessions` ages sessions by their recorded
`started_at`, not by when they completed (no completion time is recorded
at all), so a session completed a moment ago is still removed when its
start is older than the cutoff. -/

/-- C9 counterexample: a store holding one open session started at time
100; completing it at time 1000000 and cleaning up immediately (24 h
maximum age, so the completion is 0 seconds old and not older than the
maximum age) still removes it, because the removal keys on `started_at`. -/
theorem claim_C9_counterexample :
    (((TransferSessionStore.mk [("s1", ⟨"s1", "p", "100", [], false⟩)]).complete_session
        "s1").sessions.map fun e => (e.1, e.2.completed)) = [("s1", true)] ∧
    (((TransferSessionStore.mk [("s1", ⟨"s1", "p", "100", [], false⟩)]).complete_session
        "s1").cleanup_old_sessions (fun t => if t = "100" then some 100 else none)
        1000000 24).sessions = [] := by
  exact ⟨by decide, by decide⟩

/-- C9 (amended): `complete_session` marks the session completed without
removing anything (session ids are preserved, other sessions untouched),
and `cleanup_old_sessions` removes exactly the sessions that are completed
and whose recorded start time parses to a timestamp at least
`max_age_hours` old; open sessions are always retained, as are sessions
whose start time does not parse. -/
theorem claim_C9_cleanup (parse : String → Option Int) (now maxAge : Int)
    (store : TransferSessionStore) (sid : String) :
    ((store.complete_session sid).sessions.map fun e => e.1) =
      (store.sessions.map fun e => e.1) ∧
    (∀ e ∈ (store.complete_session sid).sessions, e.1 = sid → e.2.completed = true) ∧
    (∀ e ∈ store.sessions, e.1 ≠ sid → e ∈ (store.complete_session sid).sessions) ∧
    (∀ e, e ∈ (store.cleanup_old_sessions parse now maxAge).sessions ↔
      e ∈ store.sessions ∧ (e.2.completed = false ∨
        ∀ t, parse e.2.started_at = some t → now - maxAge * 3600 < t)) := by
  refine ⟨?_, ?_, ?_, ?_⟩
  · simp only [TransferSessionStore.complete_session, List.map_map]
    apply List.map_congr_left
    intro a _
    by_cases hk : a.1 = sid <;> simp [hk]
  · intro e he hk
    simp only [TransferSessionStore.complete_session] at he
    obtain ⟨a, ha, rfl⟩ := List.mem_map.mp he
    by_cases h : a.1 = sid
    · simp [if_pos h]
    · simp only [if_neg h] at hk ⊢
      exact absurd hk h
  · intro e he hne
    simp only [TransferSessionStore.complete_session]
    exact List.mem_map.mpr ⟨e, he, by simp [if_neg hne]⟩
  · intro e
    simp only [TransferSessionStore.cleanup_old_sessions, List.mem_filter]
    constructor
    · rintro ⟨hmem, hret⟩
      refine ⟨hmem, ?_⟩
      unfold retainSession at hret
      rcases hp : parse e.2.started_at with _ | t
      · refine Or.inr fun t ht => ?_
        cases ht
      · rw [hp] at hret
        simp only [Bool.or_eq_true, decide_eq_true_eq, Bool.not_eq_true'] at hret
        rcases hret with h | h
        · refine Or.inr fun t' ht' => ?_
          rw [← Option.some.inj ht']
          exact h
        · exact Or.inl h
    · rintro ⟨hmem, hcond⟩
      refine ⟨hmem, ?_⟩
      unfold retainSession
      rcases hp : parse e.2.started_at with _ | t
      · rfl
      · simp only [Bool.or_eq_true, decide_eq_true_eq, Bool.not_eq_true']
        rcases hcond with h | h
        · exact Or.inr h
        · exact Or.inl (h t hp)

/-! Claim C10: operations on an unregistered path are no-ops. -/

/-- C10: for a path registered in none of the session's entries,
`update_progress`, `mark_completed` and `mark_failed` leave the session
unchanged. -/
theorem claim_C10_frame (s : TransferSession) (p now : String) (n : Nat)
    (habs : ∀ e ∈ s.files, e.1 ≠ p) :
    s.update_progress p n now = s ∧
    s.mark_completed p now = s ∧
    s.mark_failed p now = s := by
  refine ⟨?_, ?_, ?_⟩
  · simp only [TransferSession.update_progress]
    rw [map_keyed_id s.files p _ habs]
  · simp only [TransferSession.mark_completed]
    rw [map_keyed_id s.files p _ habs]
  · simp only [TransferSession.mark_failed]
    rw [map_keyed_id s.files p _ habs]

/-! Chunking lemmas shared by several claims. -/

theorem chunksOf_nil (n : Nat) : chunksOf n [] = [] := by
  rw [chunksOf]
  simp

theorem chunksOf_step {n : Nat} {l : List Nat} (hl : l ≠ []) (hn : n ≠ 0) :
    chunksOf n l = l.take n :: chunksOf n (l.drop n) := by
  rw [chunksOf]
  rw [dif_neg]
  push_neg
  exact ⟨hl, hn⟩

theorem chunksOf_single {n : Nat} {l : List Nat} (hl : l ≠ []) (hlen : l.length ≤ n) :
    chunksOf n l = [l] := by
  have hn : n ≠ 0 := by
    have := List.length_pos.mpr hl
    omega
  rw [chunksOf_step hl hn, List.take_of_length_le hlen, List.drop_of_length_le hlen,
    chunksOf_nil]

/-! Claim C4: `resume_sftp_upload` on a remote-size mismatch. The source
recreates the remote file (discarding the recorded offset on the remote
side) but never re-seeks the local file to 0, so the freshly created
remote file receives only the local bytes from `offset` on, while the
returned transferred count still reports the full file size. -/

/-- C4: evaluating `resume_sftp_upload` at the failing input — an
8192-byte local file (4096 ones then 4096 twos), recorded offset 4096, and
a remote whose stat reports size 0 (≠ offset, the restart branch). The
remote ends holding only the last 4096 bytes, not the complete local
content, even though the returned count equals the full local size. -/
theorem claim_C4_resume_mismatch_bug :
    (resume_sftp_upload (List.replicate 4096 1 ++ List.replicate 4096 2)
        (some { contents := [], statSize := some 0 }) 4096).1 = List.replicate 4096 2 ∧
    (resume_sftp_upload (List.replicate 4096 1 ++ List.replicate 4096 2)
        (some { contents := [], statSize := some 0 }) 4096).1 ≠
      List.replicate 4096 1 ++ List.replicate 4096 2 ∧
    (resume_sftp_upload (List.replicate 4096 1 ++ List.replicate 4096 2)
        (some { contents := [], statSize := some 0 }) 4096).2 =
      (List.replicate 4096 (1 : Nat) ++ List.replicate 4096 2).length := by
  have hdrop : (List.replicate 4096 (1 : Nat) ++ List.replicate 4096 2).drop 4096 =
      List.replicate 4096 2 :=
    List.drop_left' (List.length_replicate 4096 1)
  have hne2 : (List.replicate 4096 (2 : Nat)) ≠ [] := by
    apply List.length_pos.mp
    rw [List.length_replicate]
    norm_num
  have hchunks : chunksOf 65536 (List.replicate 4096 (2 : Nat)) = [List.replicate 4096 2] :=
    chunksOf_single hne2 (by rw [List.length_replicate]; norm_num)
  have hres : resume_sftp_upload (List.replicate 4096 1 ++ List.replicate 4096 2)
      (some { contents := [], statSize := some 0 }) 4096 =
      (List.replicate 4096 2, 4096 + (List.replicate 4096 (2 : Nat)).length) := by
    unfold resume_sftp_upload
    rw [if_pos (by norm_num : (0 : Nat) < 4096)]
    dsimp only
    rw [if_pos (by norm_num : (0 : Nat) ≠ 4096)]
    rw [hdrop, hchunks]
    simp only [writeChunks, writeAt, List.take_nil, List.drop_nil, List.nil_append,
      List.append_nil]
  refine ⟨?_, ?_, ?_⟩
  · rw [hres]
  · rw [hres]
    intro hEq
    have hlen := congrArg List.length hEq
    simp only [List.length_replicate, List.length_append] at hlen
    omega
  · rw [hres]
    rw [List.length_replicate, List.length_append, List.length_replicate,
      List.length_replicate]

/-! Claim C8: the snapshot retention cap of `add_snapshot`. -/

theorem mem_backupDeletionFold (q : String) (fs : List FileVersion) :
    ∀ disk : List String,
      (q ∈ fs.foldl (fun d f => match f.backup_path with
          | some p => d.filter fun r => decide (r ≠ p)
          | none => d) disk) ↔
        q ∈ disk ∧ ∀ f ∈ fs, f.backup_path ≠ some q := by
  induction fs with
  | nil => intro disk; simp
  | cons f rest ih =>
    intro disk
    rw [List.foldl_cons, ih]
    rcases hb : f.backup_path with _ | p
    · simp [hb, List.forall_mem_cons]
    · simp only [hb, List.mem_filter, decide_eq_true_eq, List.forall_mem_cons, ne_eq,
        Option.some.injEq]
      constructor
      · rintro ⟨⟨hd, hne⟩, hrest⟩
        exact ⟨hd, fun h => hne h.symm, hrest⟩
      · rintro ⟨hd, hf, hrest⟩
        exact ⟨⟨hd, fun h => hf h.symm⟩, hrest⟩

theorem mem_deleteBackups (q : String) (snap : SyncSnapshot) (disk : List String) :
    q ∈ deleteBackups snap disk ↔ q ∈ disk ∧ q ∉ backupPaths snap := by
  rw [deleteBackups, mem_backupDeletionFold]
  simp [backupPaths, List.mem_filterMap]

theorem mem_evictFold (q : String) (snaps : List SyncSnapshot) :
    ∀ disk : List String,
      q ∈ evictFold snaps disk ↔ q ∈ disk ∧ ∀ s ∈ snaps, q ∉ backupPaths s := by
  induction snaps with
  | nil => intro disk; simp [evictFold]
  | cons s rest ih =>
    intro disk
    rw [evictFold, ih, mem_deleteBackups]
    simp [List.forall_mem_cons]
    tauto

theorem pruneSnapshots_eq (snaps : List SyncSnapshot) :
    ∀ (m : Nat) (disk : List String),
      pruneSnapshots m snaps disk =
        (snaps.drop (snaps.length - m), evictFold (snaps.take (snaps.length - m)) disk) := by
  induction snaps with
  | nil => intro m disk; simp [pruneSnapshots, evictFold]
  | cons s rest ih =>
    intro m disk
    by_cases hm : m < (s :: rest).length
    · have hlen : (s :: rest).length - m = (rest.length - m) + 1 := by
        simp only [List.length_cons] at hm ⊢; omega
      simp only [pruneSnapshots, if_pos hm, ih, hlen, List.drop_succ_cons,
        List.take_succ_cons]
      rfl
    · have hlen : (s :: rest).length - m = 0 := by
        simp only [List.length_cons] at hm ⊢; omega
      simp only [pruneSnapshots, if_neg hm, hlen, List.drop_zero, List.take_zero]
      rfl

/-- C8: `add_snapshot` keeps at most `max_snapshots` snapshots; the
evicted ones are exactly the oldest (the front of `snapshots ++ [new]`),
their backup files are gone from the disk afterwards, and the cap itself
is unchanged. The second conjunct instantiates the claim's example: the
11th snapshot added to a 10-capped history evicts snapshot #1 and its
backup file `b1` is no longer present. -/
theorem claim_C8_snapshot_cap :
    (∀ (h : ProjectVersionHistory) (s : SyncSnapshot) (disk : List String),
      (h.add_snapshot s disk).1.snapshots =
        (h.snapshots ++ [s]).drop ((h.snapshots ++ [s]).length - h.max_snapshots) ∧
      (h.add_snapshot s disk).1.snapshots.length ≤ h.max_snapshots ∧
      (h.add_snapshot s disk).1.max_snapshots = h.max_snapshots ∧
      (∀ snap ∈ (h.snapshots ++ [s]).take ((h.snapshots ++ [s]).length - h.max_snapshots),
        ∀ p ∈ backupPaths snap, p ∉ (h.add_snapshot s disk).2)) ∧
    (ProjectVersionHistory.add_snapshot
        { project_id := "p"
          snapshots := snapWithBackup :: ((List.range 9).map fun i => snapNoBackup (i + 2))
          max_snapshots := 10 }
        (snapNoBackup 11) ["b1", "b2"] =
      ({ project_id := "p"
         snapshots := ((List.range 9).map fun i => snapNoBackup (i + 2)) ++ [snapNoBackup 11]
         max_snapshots := 10 }, ["b2"])) := by
  constructor
  · intro h s disk
    simp only [ProjectVersionHistory.add_snapshot, pruneSnapshots_eq]
    refine ⟨trivial, ?_, trivial, ?_⟩
    · simp only [List.length_drop]
      omega
    · intro snap hsnap p hp hmem
      rw [mem_evictFold] at hmem
      exact (hmem.2 snap hsnap) hp
  · decide

/-! Claim C6: the failure policy of the parallel wave. The parallel
schedule is modelled as a sequential pass over the files: the error
accumulation, the should-stop gate and the aggregate failure are
schedule-independent (each worker only reads the shared failure counter
before starting and appends its own error). -/

theorem runWave_spec (outcome : String → Option String) (files : List FileDiff) :
    ∀ (t : Tracker) (up : List String),
      runWave outcome false files t up =
        ({ completed_files := t.completed_files +
             ((attemptedPaths outcome t.failed_files files).filter fun p =>
               (outcome p).isNone).length
           failed_files := t.failed_files +
             ((attemptedPaths outcome t.failed_files files).filterMap fun p =>
               (outcome p).map fun e => p ++ ": " ++ e).length
           errors := t.errors ++
             ((attemptedPaths outcome t.failed_files files).filterMap fun p =>
               (outcome p).map fun e => p ++ ": " ++ e) },
         up ++ ((attemptedPaths outcome t.failed_files files).filter fun p =>
           (outcome p).isNone)) := by
  induction files with
  | nil => intro t up; simp [runWave, attemptedPaths]
  | cons d rest ih =>
    intro t up
    rw [runWave]
    simp only [Bool.false_or]
    by_cases hstop : 3 ≤ t.failed_files
    · have hs : t.should_stop = true := by simp [Tracker.should_stop, hstop]
      rw [hs, if_pos rfl, attemptedPaths, if_pos hstop]
      exact ih t up
    · have hs : t.should_stop = false := by simp [Tracker.should_stop, hstop]
      rw [hs, if_neg (by simp), attemptedPaths, if_neg hstop]
      rcases ho : outcome d.path with _ | e
      · dsimp only
        rw [ih]
        simp [Tracker.fileComplete, ho, List.append_assoc, Prod.mk.injEq,
          Tracker.mk.injEq]
        omega
      · dsimp only
        rw [ih]
        simp [Tracker.fileError, ho, List.append_assoc, Prod.mk.injEq,
          Tracker.mk.injEq]
        omega

/-- C6: per-file errors are accumulated by the wave without aborting the
siblings still allowed to start; the batch as a whole fails with one
aggregate error listing every failed path and message whenever any file
failed — in particular whenever three or more did; files that succeeded
stay uploaded, returned alongside the failure and never rolled back; and
`should_stop` is true exactly once 3 failures are recorded, after which no
further file is started by any worker. -/
theorem claim_C6_failure_policy (outcome : String → Option String) (diffs : List FileDiff) :
    parallel_ftp_sync outcome false diffs =
      (if (waveErrors outcome (uploadCandidates diffs)).isEmpty then Except.ok ()
       else Except.error (aggregateError (waveErrors outcome (uploadCandidates diffs))),
       waveUploads outcome (uploadCandidates diffs)) ∧
    (3 ≤ (waveErrors outcome (uploadCandidates diffs)).length →
      (parallel_ftp_sync outcome false diffs).1 =
        Except.error (aggregateError (waveErrors outcome (uploadCandidates diffs)))) ∧
    (∀ t : Tracker, t.should_stop = true ↔ 3 ≤ t.failed_files) ∧
    (∀ (rest : List FileDiff) (t : Tracker) (up : List String),
      3 ≤ t.failed_files → runWave outcome false rest t up = (t, up)) := by
  have hcand : (diffs.filter fun d => d.status == "added" || d.status == "modified") =
      uploadCandidates diffs := rfl
  have hmain : parallel_ftp_sync outcome false diffs =
      (if (waveErrors outcome (uploadCandidates diffs)).isEmpty then Except.ok ()
       else Except.error (aggregateError (waveErrors outcome (uploadCandidates diffs))),
       waveUploads outcome (uploadCandidates diffs)) := by
    unfold parallel_ftp_sync
    rw [hcand]
    by_cases hempty : (uploadCandidates diffs).isEmpty
    · rw [if_pos hempty]
      have hnil : uploadCandidates diffs = [] := List.isEmpty_iff.mp hempty
      rw [hnil]
      simp [waveErrors, waveUploads, attemptedPaths]
    · rw [if_neg hempty]
      rw [runWave_spec]
      simp only [Tracker.init]
      rw [if_neg (by simp : ¬ false = true)]
      simp only [waveErrors, waveUploads, List.nil_append]
  refine ⟨hmain, ?_, ?_, ?_⟩
  · intro h3
    rw [hmain]
    have : ¬ (waveErrors outcome (uploadCandidates diffs)).isEmpty = true := by
      rcases h : waveErrors outcome (uploadCandidates diffs) with _ | ⟨a, l⟩
      · rw [h] at h3; simp at h3
      · simp
    rw [if_neg this]
  · intro t
    simp [Tracker.should_stop]
  · intro rest
    induction rest with
    | nil => intro t up _; rw [runWave]
    | cons d r ih =>
      intro t up h3
      have hs : t.should_stop = true := by simp [Tracker.should_stop, h3]
      rw [runWave]
      simp only [Bool.false_or, hs, if_pos]
      exact ih t up h3

/-! Claim C7: the shape of an `analyze_delta_sync` pass. -/

theorem walkDeltas_eq (hash : List Nat → List Nat)
    (cache : List (String × FileSignature)) :
    ∀ entries : List DirEntry,
      walkDeltas hash cache entries = entries.filterMap fun e =>
        if isHiddenPath e.relative then none
        else e.contents.map fun contents =>
          compute_file_delta hash contents e.relative (cacheFind cache e.relative) := by
  intro entries
  induction entries with
  | nil => rfl
  | cons e rest ih =>
    rcases hc : e.contents with _ | contents <;>
      by_cases hh : isHiddenPath e.relative <;>
        simp [walkDeltas, List.filterMap_cons, hh, hc, ih]

theorem deletedDeltas_eq (existing : List String) :
    ∀ cache : List (String × FileSignature),
      deletedDeltas existing cache = cache.filterMap fun kv =>
        if existing.contains kv.1 then none else some (deletedDelta kv.1) := by
  intro cache
  induction cache with
  | nil => rfl
  | cons kv rest ih =>
    by_cases hm : kv.1 ∈ existing <;>
      simp [deletedDeltas, List.filterMap_cons, hm, ih]

/-- C7: an analysis pass yields one delta per non-hidden readable file
(computed against that path's cached signature) followed by one synthetic
`Deleted` delta per cached path absent from the disk; a file whose read
fails is skipped without failing the pass; and the spec's concrete tree —
a new `a.txt`, a byte-identical cached 256 KiB `b.txt`, and a cached but
removed `c.txt` — yields exactly the statuses `New`, `Unchanged`,
`Deleted`. -/
theorem claim_C7_analyze (hash : List Nat → List Nat) (entries : List DirEntry)
    (existing : List String) (cache : List (String × FileSignature)) :
    analyze_delta_sync hash entries existing cache =
      (entries.filterMap fun e =>
        if isHiddenPath e.relative then none
        else e.contents.map fun contents =>
          compute_file_delta hash contents e.relative (cacheFind cache e.relative)) ++
      cache.filterMap (fun kv =>
        if existing.contains kv.1 then none else some (deletedDelta kv.1)) ∧
    (∀ (p : String) (rest : List DirEntry),
      analyze_delta_sync hash (⟨p, none⟩ :: rest) existing cache =
        analyze_delta_sync hash rest existing cache) ∧
    ((analyze_delta_sync idHash
        [⟨"a.txt", some [1, 2, 3]⟩,
         ⟨"b.txt", some (List.replicate MIN_DELTA_FILE_SIZE 0)⟩]
        ["a.txt", "b.txt"]
        [("b.txt", generate_file_signature idHash (List.replicate MIN_DELTA_FILE_SIZE 0)
            "b.txt" "" ""),
         ("c.txt", generate_file_signature idHash [] "c.txt" "" "")]).map
        (fun d => (d.path, d.status)) =
      [("a.txt", DeltaStatus.New), ("b.txt", DeltaStatus.Unchanged),
       ("c.txt", DeltaStatus.Deleted)]) := by
  refine ⟨?_, ?_, ?_⟩
  · rw [analyze_delta_sync, walkDeltas_eq, deletedDeltas_eq]
  · intro p rest
    rw [analyze_delta_sync, analyze_delta_sync]
    by_cases hh : isHiddenPath p <;> simp [walkDeltas, hh]
  · have hha : isHiddenPath "a.txt" = false := by decide
    have hhb : isHiddenPath "b.txt" = false := by decide
    have hsigb := compute_delta_self_unchanged idHash
      (List.replicate MIN_DELTA_FILE_SIZE 0) "b.txt" "" "" (by rw [List.length_replicate])
    rw [analyze_delta_sync]
    simp only [walkDeltas, deletedDeltas]
    rw [hha, hhb]
    simp only [Bool.false_eq_true, if_false]
    rw [show cacheFind
        [("b.txt", generate_file_signature idHash (List.replicate MIN_DELTA_FILE_SIZE 0)
            "b.txt" "" ""),
         ("c.txt", generate_file_signature idHash [] "c.txt" "" "")] "b.txt" =
      some (generate_file_signature idHash (List.replicate MIN_DELTA_FILE_SIZE 0)
        "b.txt" "" "") from rfl]
    rw [hsigb]
    rfl

/-! Claim C3: the `Modified` branch of `compute_file_delta`. -/

theorem scanChunks_fst (hash : List Nat → List Nat) (cached : List ChunkHash) :
    ∀ pairs : List (Nat × List Nat),
      (scanChunks hash cached pairs).1 =
        (pairs.filter fun pr => chunkChanged hash cached pr.1 pr.2).map Prod.fst := by
  intro pairs
  induction pairs with
  | nil => rfl
  | cons pr rest ih =>
    rcases pr with ⟨i, c⟩
    by_cases hch : chunkChanged hash cached i c <;>
      simp [scanChunks, List.filter_cons, hch, ih]

theorem scanChunks_snd (hash : List Nat → List Nat) (cached : List ChunkHash) :
    ∀ pairs : List (Nat × List Nat),
      (scanChunks hash cached pairs).2 =
        ((pairs.filter fun pr => chunkChanged hash cached pr.1 pr.2).map
          fun pr => pr.2.length).sum := by
  intro pairs
  induction pairs with
  | nil => rfl
  | cons pr rest ih =>
    rcases pr with ⟨i, c⟩
    by_cases hch : chunkChanged hash cached i c <;>
      simp [scanChunks, List.filter_cons, hch, ih, Nat.add_comm]

theorem chunkChanged_eq_true_iff (hash : List Nat → List Nat) (cached : List ChunkHash)
    (i : Nat) (c : List Nat) :
    chunkChanged hash cached i c = true ↔
      ∀ ch, cached[i]? = some ch → ch.hash ≠ hash c := by
  unfold chunkChanged
  rcases h : cached[i]? with _ | ch <;> simp [h]

theorem enumFrom_zero_mem_iff (l : List (List Nat)) (i : Nat) (c : List Nat) :
    (i, c) ∈ List.enumFrom 0 l ↔ l[i]? = some c := by
  rw [List.mem_iff_getElem?]
  constructor
  · rintro ⟨j, hj⟩
    rw [List.getElem?_enumFrom] at hj
    rcases h : l[j]? with _ | a
    · rw [h] at hj; cases hj
    · rw [h] at hj
      simp only [Option.map_some', Option.some.injEq, Prod.mk.injEq, Nat.zero_add] at hj
      rw [← hj.1, h, hj.2]
  · intro h
    exact ⟨i, by rw [List.getElem?_enumFrom, h]; simp⟩

theorem enumFrom_append_eq {α : Type} (l₁ l₂ : List α) :
    ∀ s, List.enumFrom s (l₁ ++ l₂) =
      List.enumFrom s l₁ ++ List.enumFrom (s + l₁.length) l₂ := by
  induction l₁ with
  | nil => intro s; simp
  | cons a l ih =>
    intro s
    simp only [List.cons_append, List.enumFrom_cons, List.length_cons]
    rw [ih (s + 1)]
    rw [show s + 1 + l.length = s + (l.length + 1) from by omega]

theorem sublist_sum_le {l₁ l₂ : List Nat} (h : l₁.Sublist l₂) : l₁.sum ≤ l₂.sum := by
  induction h with
  | slnil => simp
  | cons a h ih => simp only [List.sum_cons]; omega
  | cons₂ a h ih => simp only [List.sum_cons]; omega

theorem chunksOf_length_sum (n : Nat) (hn : n ≠ 0) (l : List Nat) :
    ((chunksOf n l).map List.length).sum = l.length := by
  generalize hk : l.length = k
  induction k using Nat.strong_induction_on generalizing l with
  | _ k ih =>
    rcases eq_or_ne l [] with rfl | hl
    · rw [chunksOf_nil]
      simp only [List.map_nil, List.sum_nil]
      simp only [List.length_nil] at hk
      omega
    · rw [chunksOf_step hl hn]
      simp only [List.map_cons, List.sum_cons, List.length_take]
      have hpos : 0 < l.length := List.length_pos.mpr hl
      have hdl : (l.drop n).length < l.length := by
        rw [List.length_drop]
        omega
      rw [ih (l.drop n).length (by omega) (l.drop n) rfl]
      rw [List.length_drop]
      omega

theorem chunksOf_replicate_front (n : Nat) (hn : n ≠ 0) (a : Nat) :
    ∀ (k : Nat) (l : List Nat),
      chunksOf n (List.replicate (k * n) a ++ l) =
        List.replicate k (List.replicate n a) ++ chunksOf n l := by
  intro k
  induction k with
  | zero => intro l; simp
  | succ k ih =>
    intro l
    have hrep : List.replicate ((k + 1) * n) a =
        List.replicate n a ++ List.replicate (k * n) a := by
      rw [← List.replicate_add]
      congr 1
      ring
    rw [hrep, List.append_assoc]
    have hne : (List.replicate n a ++ (List.replicate (k * n) a ++ l)) ≠ [] := by
      intro hcontr
      have := congrArg List.length hcontr
      simp only [List.length_append, List.length_replicate, List.length_nil] at this
      omega
    rw [chunksOf_step hne hn, List.take_left' (List.length_replicate n a),
      List.drop_left' (List.length_replicate n a), ih]
    rw [List.replicate_succ]
    rfl

theorem chunksOf_replicate_mul (n k a : Nat) (hn : n ≠ 0) :
    chunksOf n (List.replicate (k * n) a) = List.replicate k (List.replicate n a) := by
  have h := chunksOf_replicate_front n hn a k []
  rw [List.append_nil] at h
  rw [h, chunksOf_nil, List.append_nil]

theorem chunkHashesOf_getElem?_hash (hash : List Nat → List Nat) :
    ∀ (chunks : List (List Nat)) (s o i : Nat),
      ((chunkHashesOf hash chunks s o)[i]?).map (fun ch => ch.hash) =
        (chunks[i]?).map hash := by
  intro chunks
  induction chunks with
  | nil => intro s o i; simp [chunkHashesOf]
  | cons c rest ih =>
    intro s o i
    cases i with
    | zero => simp [chunkHashesOf]
    | succ i =>
      simp only [chunkHashesOf, List.getElem?_cons_succ]
      exact ih (s + 1) (o + c.length) i

theorem chunkChanged_chunkHashesOf (hash : List Nat → List Nat)
    (chunks : List (List Nat)) (s o i : Nat) (c : List Nat) :
    chunkChanged hash (chunkHashesOf hash chunks s o) i c =
      ((chunks[i]?).map fun c0 => decide (hash c0 ≠ hash c)).getD true := by
  unfold chunkChanged
  have h := chunkHashesOf_getElem?_hash hash chunks s o i
  rcases hc : chunks[i]? with _ | c0 <;> rw [hc] at h
  · rcases hx : (chunkHashesOf hash chunks s o)[i]? with _ | ch <;> rw [hx] at h
    · rfl
    · simp at h
  · rcases hx : (chunkHashesOf hash chunks s o)[i]? with _ | ch <;> rw [hx] at h
    · simp at h
    · simp only [Option.map_some', Option.some.injEq] at h
      simp only [Option.map_some', Option.getD_some, h]

theorem filter_enumFrom_replicate_false (p : Nat × List Nat → Bool) (c : List Nat) :
    ∀ (k s : Nat), (∀ i, s ≤ i → i < s + k → p (i, c) = false) →
      (List.enumFrom s (List.replicate k c)).filter p = [] := by
  intro k
  induction k with
  | zero => intro s _; simp
  | succ k ih =>
    intro s h
    rw [List.replicate_succ, List.enumFrom_cons, List.filter_cons,
      h s (Nat.le_refl s) (by omega)]
    simp only [Bool.false_eq_true, if_false]
    exact ih (s + 1) fun i h1 h2 => h i (by omega) (by omega)

/-- C3: for a cached file of at least 256 KiB whose whole-file hash
differs from the cached one, `compute_file_delta` returns `Modified`; the
changed chunks are exactly the indices of the live chunks whose cached
counterpart is missing or hashes differently (in ascending order — the
filter of the enumerated live chunks — so cached indices beyond the live
chunk count never appear); `transfer_size` is the sum of the changed
chunks' byte lengths, at most the file size; and `savings_percent` is
`(total_size − transfer_size) / total_size * 100`. -/
theorem claim_C3_modified (hash : List Nat → List Nat) (contents : List Nat)
    (rel : String) (sig : FileSignature)
    (hbig : MIN_DELTA_FILE_SIZE ≤ contents.length)
    (hne : hash contents ≠ sig.full_hash) :
    (compute_file_delta hash contents rel (some sig)).status = DeltaStatus.Modified ∧
    (compute_file_delta hash contents rel (some sig)).total_size = contents.length ∧
    (compute_file_delta hash contents rel (some sig)).changed_chunks =
      ((List.enumFrom 0 (chunksOf CHUNK_SIZE contents)).filter fun pr =>
        chunkChanged hash sig.chunk_hashes pr.1 pr.2).map Prod.fst ∧
    (∀ i, i ∈ (compute_file_delta hash contents rel (some sig)).changed_chunks ↔
      ∃ c, (chunksOf CHUNK_SIZE contents)[i]? = some c ∧
        ∀ ch, sig.chunk_hashes[i]? = some ch → ch.hash ≠ hash c) ∧
    (∀ i ∈ (compute_file_delta hash contents rel (some sig)).changed_chunks,
      i < (chunksOf CHUNK_SIZE contents).length) ∧
    (compute_file_delta hash contents rel (some sig)).transfer_size =
      (((List.enumFrom 0 (chunksOf CHUNK_SIZE contents)).filter fun pr =>
        chunkChanged hash sig.chunk_hashes pr.1 pr.2).map fun pr => pr.2.length).sum ∧
    (compute_file_delta hash contents rel (some sig)).transfer_size ≤ contents.length ∧
    (compute_file_delta hash contents rel (some sig)).savings_percent =
      ((contents.length - (compute_file_delta hash contents rel (some sig)).transfer_size
        : Nat) : ℚ) / (contents.length : ℚ) * 100 := by
  have hpos : 0 < contents.length := by
    have : (0 : Nat) < MIN_DELTA_FILE_SIZE := by norm_num [MIN_DELTA_FILE_SIZE]
    omega
  have hd : compute_file_delta hash contents rel (some sig) =
      { path := rel, status := DeltaStatus.Modified, total_size := contents.length
        transfer_size := (scanChunks hash sig.chunk_hashes
          (List.enumFrom 0 (chunksOf CHUNK_SIZE contents))).2
        changed_chunks := (scanChunks hash sig.chunk_hashes
          (List.enumFrom 0 (chunksOf CHUNK_SIZE contents))).1
        savings_percent := ((contents.length - (scanChunks hash sig.chunk_hashes
            (List.enumFrom 0 (chunksOf CHUNK_SIZE contents))).2 : Nat) : ℚ) /
          (contents.length : ℚ) * 100 } := by
    unfold compute_file_delta
    dsimp only
    rw [if_neg (Nat.not_lt.mpr hbig), if_neg hne, if_pos hpos]
  have hch : (compute_file_delta hash contents rel (some sig)).changed_chunks =
      ((List.enumFrom 0 (chunksOf CHUNK_SIZE contents)).filter fun pr =>
        chunkChanged hash sig.chunk_hashes pr.1 pr.2).map Prod.fst := by
    rw [hd]
    exact scanChunks_fst hash sig.chunk_hashes _
  have htr : (compute_file_delta hash contents rel (some sig)).transfer_size =
      (((List.enumFrom 0 (chunksOf CHUNK_SIZE contents)).filter fun pr =>
        chunkChanged hash sig.chunk_hashes pr.1 pr.2).map fun pr => pr.2.length).sum := by
    rw [hd]
    exact scanChunks_snd hash sig.chunk_hashes _
  have hmem : ∀ i, i ∈ (compute_file_delta hash contents rel (some sig)).changed_chunks ↔
      ∃ c, (chunksOf CHUNK_SIZE contents)[i]? = some c ∧
        ∀ ch, sig.chunk_hashes[i]? = some ch → ch.hash ≠ hash c := by
    intro i
    rw [hch]
    constructor
    · intro hmem
      rw [List.mem_map] at hmem
      obtain ⟨pr, hpr, hfst⟩ := hmem
      rw [List.mem_filter] at hpr
      rcases pr with ⟨i', c⟩
      cases hfst
      exact ⟨c, (enumFrom_zero_mem_iff _ _ _).mp hpr.1,
        (chunkChanged_eq_true_iff hash _ _ _).mp hpr.2⟩
    · rintro ⟨c, hc, hcond⟩
      rw [List.mem_map]
      exact ⟨(i, c), List.mem_filter.mpr ⟨(enumFrom_zero_mem_iff _ _ _).mpr hc,
        (chunkChanged_eq_true_iff hash _ _ _).mpr hcond⟩, rfl⟩
  refine ⟨by rw [hd], by rw [hd], hch, hmem, ?_, htr, ?_, by rw [hd]⟩
  · intro i hi
    obtain ⟨c, hc, _⟩ := (hmem i).mp hi
    by_contra hlt
    push_neg at hlt
    rw [List.getElem?_eq_none hlt] at hc
    cases hc
  · rw [htr]
    have hsub : (((List.enumFrom 0 (chunksOf CHUNK_SIZE contents)).filter fun pr =>
        chunkChanged hash sig.chunk_hashes pr.1 pr.2).map fun pr => pr.2.length).Sublist
        ((List.enumFrom 0 (chunksOf CHUNK_SIZE contents)).map fun pr => pr.2.length) :=
      (List.filter_sublist _).map _
    have hall : ((List.enumFrom 0 (chunksOf CHUNK_SIZE contents)).map
        fun pr => pr.2.length) = (chunksOf CHUNK_SIZE contents).map List.length := by
      rw [show (fun pr : Nat × List Nat => pr.2.length) =
        (List.length ∘ Prod.snd) from rfl]
      rw [← List.map_map, List.enumFrom_map_snd]
    have := sublist_sum_le hsub
    rw [hall, chunksOf_length_sum CHUNK_SIZE (by norm_num [CHUNK_SIZE]) contents] at this
    exact this

theorem oneMiB_len : oneMiBFlipped.length = 16 * 65536 := by
  rw [oneMiBFlipped]
  rw [List.length_append, List.length_append, List.length_replicate,
    List.length_cons, List.length_replicate, List.length_replicate]

theorem oneMiB_big : MIN_DELTA_FILE_SIZE ≤ oneMiBFlipped.length := by
  rw [oneMiB_len]
  norm_num [MIN_DELTA_FILE_SIZE]

theorem oneMiB_flipped_byte : oneMiBFlipped[3 * 65536]? = some 1 := by
  rw [oneMiBFlipped]
  rw [List.getElem?_append_left (by
    rw [List.length_append, List.length_replicate, List.length_cons,
      List.length_replicate]
    norm_num)]
  rw [List.getElem?_append_right (Nat.le_of_eq (List.length_replicate (3 * 65536) 0))]
  rw [List.length_replicate, Nat.sub_self]
  exact List.getElem?_cons_zero

theorem oneMiB_zero_byte : oneMiBZeros[3 * 65536]? = some 0 := by
  rw [oneMiBZeros]
  exact List.getElem?_replicate_of_lt (by norm_num)

theorem oneMiB_hash_ne : idHash oneMiBFlipped ≠
    (generate_file_signature idHash oneMiBZeros "f" "" "").full_hash := by
  show oneMiBFlipped ≠ oneMiBZeros
  intro hEq
  have hL := oneMiB_flipped_byte
  rw [hEq, oneMiB_zero_byte] at hL
  exact absurd (Option.some.inj hL) (by norm_num)

theorem oneMiB_chunks_zeros : chunksOf CHUNK_SIZE oneMiBZeros =
    List.replicate 16 (List.replicate 65536 0) := by
  rw [show CHUNK_SIZE = 65536 from rfl, oneMiBZeros]
  exact chunksOf_replicate_mul 65536 16 0 (by norm_num)

theorem oneMiB_chunks_flipped : chunksOf CHUNK_SIZE oneMiBFlipped =
    List.replicate 3 (List.replicate 65536 0) ++
      (1 :: List.replicate 65535 0) :: List.replicate 12 (List.replicate 65536 0) := by
  rw [show CHUNK_SIZE = 65536 from rfl, oneMiBFlipped, List.append_assoc]
  rw [chunksOf_replicate_front 65536 (by norm_num) 0 3]
  congr 1
  have hBne : ((1 :: List.replicate 65535 (0 : Nat)) ++ List.replicate (12 * 65536) 0) ≠ [] := by
    rw [List.cons_append]
    exact List.cons_ne_nil _ _
  rw [chunksOf_step hBne (by norm_num)]
  have hBlen : (1 :: List.replicate 65535 (0 : Nat)).length = 65536 := by
    rw [List.length_cons, List.length_replicate]
  rw [List.take_left' hBlen, List.drop_left' hBlen]
  rw [chunksOf_replicate_mul 65536 12 0 (by norm_num)]

theorem oneMiB_pred (i : Nat) (c : List Nat) :
    chunkChanged idHash
      (generate_file_signature idHash oneMiBZeros "f" "" "").chunk_hashes i c =
    (((List.replicate 16 (List.replicate 65536 (0 : Nat)))[i]?).map
      fun c0 => decide (idHash c0 ≠ idHash c)).getD true := by
  have hsigchunks : (generate_file_signature idHash oneMiBZeros "f" "" "").chunk_hashes =
      chunkHashesOf idHash (List.replicate 16 (List.replicate 65536 0)) 0 0 := by
    show chunkHashesOf idHash (chunksOf CHUNK_SIZE oneMiBZeros) 0 0 = _
    rw [oneMiB_chunks_zeros]
  rw [hsigchunks]
  exact chunkChanged_chunkHashesOf idHash _ 0 0 i c

theorem oneMiB_pred_same (i : Nat) (hi : i < 16) :
    chunkChanged idHash
      (generate_file_signature idHash oneMiBZeros "f" "" "").chunk_hashes i
      (List.replicate 65536 0) = false := by
  rw [oneMiB_pred, List.getElem?_replicate_of_lt hi]
  rw [Option.map_some', Option.getD_some, decide_eq_false_iff_not]
  exact fun h => h rfl

theorem oneMiB_pred_diff :
    chunkChanged idHash
      (generate_file_signature idHash oneMiBZeros "f" "" "").chunk_hashes 3
      (1 :: List.replicate 65535 0) = true := by
  rw [oneMiB_pred, List.getElem?_replicate_of_lt (by norm_num : (3 : Nat) < 16)]
  rw [Option.map_some', Option.getD_some, decide_eq_true_eq]
  intro hEq
  have hEq2 : List.replicate 65536 (0 : Nat) = 1 :: List.replicate 65535 0 := hEq
  have h0 := congrArg (fun l => l[0]?) hEq2
  dsimp only at h0
  rw [List.getElem?_replicate_of_lt (by norm_num : (0 : Nat) < 65536)] at h0
  rw [List.getElem?_cons_zero] at h0
  exact absurd (Option.some.inj h0) (by norm_num)

theorem map_singleton_sum {α : Type} (f : α → Nat) (x : α) :
    (([x] : List α).map f).sum = f x := by
  rw [List.map_cons, List.map_nil, List.sum_cons, List.sum_nil, Nat.add_zero]

theorem oneMiB_chunk_len : (1 :: List.replicate 65535 (0 : Nat)).length = 65536 := by
  rw [List.length_cons, List.length_replicate]

theorem oneMiB_filter : (List.enumFrom 0 (chunksOf CHUNK_SIZE oneMiBFlipped)).filter
    (fun pr => chunkChanged idHash
      (generate_file_signature idHash oneMiBZeros "f" "" "").chunk_hashes pr.1 pr.2) =
    [(3, 1 :: List.replicate 65535 0)] := by
  rw [oneMiB_chunks_flipped, enumFrom_append_eq, List.filter_append]
  rw [filter_enumFrom_replicate_false _ _ 3 0 fun i hge hlt => oneMiB_pred_same i (by omega)]
  rw [List.length_replicate]
  rw [show (0 + 3 : Nat) = 3 from rfl]
  rw [List.enumFrom_cons, List.filter_cons]
  simp only [oneMiB_pred_diff]
  rw [if_true]
  rw [filter_enumFrom_replicate_false _ _ 12 (3 + 1) fun i hge hlt => oneMiB_pred_same i (by omega)]
  rw [List.nil_append]

/-- C3 witness: the spec's concrete instance — a 1 MiB file differing from
its cached 1 MiB signature by exactly one byte inside chunk index 3 yields
`changed_chunks = [3]` and `transfer_size = 65536`. -/
theorem claim_C3_witness :
    MIN_DELTA_FILE_SIZE ≤ oneMiBFlipped.length ∧
    idHash oneMiBFlipped ≠ (generate_file_signature idHash oneMiBZeros "f" "" "").full_hash ∧
    (compute_file_delta idHash oneMiBFlipped "f"
        (some (generate_file_signature idHash oneMiBZeros "f" "" ""))).changed_chunks = [3] ∧
    (compute_file_delta idHash oneMiBFlipped "f"
        (some (generate_file_signature idHash oneMiBZeros "f" "" ""))).transfer_size = 65536 := by
  obtain ⟨_, _, hch3, _, _, htr3, _, _⟩ := claim_C3_modified idHash oneMiBFlipped "f"
    (generate_file_signature idHash oneMiBZeros "f" "" "") oneMiB_big oneMiB_hash_ne
  refine ⟨oneMiB_big, oneMiB_hash_ne, ?_, ?_⟩
  · rw [hch3, oneMiB_filter]
    rfl
  · rw [htr3, oneMiB_filter, map_singleton_sum]
    exact oneMiB_chunk_len

/-- C10 witness: the statement at a concrete session holding only path
`a`, for the unregistered path `b`. -/
theorem claim_C10_witness :
    ((TransferSession.new "i" "p" "t").add_file "a" "la" "ra" 5 "t").update_progress "b" 7 "t2" =
      (TransferSession.new "i" "p" "t").add_file "a" "la" "ra" 5 "t" ∧
    ((TransferSession.new "i" "p" "t").add_file "a" "la" "ra" 5 "t").mark_completed "b" "t2" =
      (TransferSession.new "i" "p" "t").add_file "a" "la" "ra" 5 "t" ∧
    ((TransferSession.new "i" "p" "t").add_file "a" "la" "ra" 5 "t").mark_failed "b" "t2" =
      (TransferSession.new "i" "p" "t").add_file "a" "la" "ra" 5 "t" :=
  claim_C10_frame ((TransferSession.new "i" "p" "t").add_file "a" "la" "ra" 5 "t")
    "b" "t2" 7 (by decide)

end Laforge
